import Mathlib

/-!
# dials: iterative box smoothing and the shoebox volume check

A shallow embedding of `smooth_2d` and `smooth_3d`
(`src/algorithms/peak_finding/lui_find_peak_smoothing.h`) and of the
`Shoebox::is_bbox_within_image_volume` query that
`src/model/data/boost_python/shoebox.cc` exports.

Conventions of the embedding.

* `flex_int` is `scitbx::af::versa<int, flex_grid<> >`.  The model covers the
  two-dimensional, zero-based grid: extents `(nrow, ncol)` and a row-major
  buffer, cell `(row, col)` living at position `row * ncol + col`.
* An `int` is a mathematical integer; `+` on `int` wraps modulo `2 ^ 32`
  (`addInt`).  A `std::size_t` is a natural number below `2 ^ 64`; `nrow - 1`
  wraps (`sizeSub1`).
* The loop counters `row` and `col` and the index expressions `row - 1`,
  `col + 1`, ... are integers.  A loop `for (c = 1; c < bound; c++)` runs
  `bound - 1` times (none when `bound ≤ 1`) with `c = 1, 2, ...`.
* Every element access checks both indices against `0` and against the
  extent; a call that would touch a cell outside the grid yields `none`.
* A `flex_int` is a reference-counted handle on its storage.  The copy
  constructor `flex_int data2dtmp(data2d)` makes a second handle on the
  storage of `data2d` (an independent copy is what `deep_copy()` gives), so
  the buffer called `data2dtmp` below is the caller's storage; `Outcome`
  reports its final contents next to the returned array.
-/

namespace dials

/-! ## Data model -/

/-- A two-dimensional `flex_int`: the accessor's extents and the element buffer. -/
structure FlexInt where
  nrow : Nat
  ncol : Nat
  elems : List Int
deriving DecidableEq, Repr

/-- The storage of a `flex_int` has one element per grid point, and the extents are within
reach of the `int` counters `row` and `col`. -/
def FlexInt.WF (a : FlexInt) : Prop :=
  a.nrow < 2 ^ 31 ∧ a.ncol < 2 ^ 31 ∧ a.elems.length = a.nrow * a.ncol

instance (a : FlexInt) : Decidable a.WF := by
  unfold FlexInt.WF; exact inferInstance

/-- Cell `(row, col)` of a buffer laid out row-major with `ncol` columns (0 outside the buffer). -/
def cell (ncol : Nat) (buf : List Int) (row col : Nat) : Int :=
  buf.getD (row * ncol + col) 0

/-- Cell `(row, col)` of an array. -/
def FlexInt.at (a : FlexInt) (row col : Nat) : Int :=
  cell a.ncol a.elems row col

/-- What a call leaves behind: the returned array and the caller's `data2d`. -/
structure Outcome where
  result : FlexInt
  data2d : FlexInt
deriving DecidableEq, Repr

/-! ## Machine arithmetic -/

/-- Reduction of an integer to the range of a 32-bit `int`. -/
def wrapInt (x : Int) : Int := (x + 2 ^ 31) % 2 ^ 32 - 2 ^ 31

/-- The `int` addition of line 22. -/
def addInt (a b : Int) : Int := wrapInt (a + b)

/-- An integer is representable as `int`. -/
def fitsInt (x : Int) : Prop := -2 ^ 31 ≤ x ∧ x < 2 ^ 31

instance (x : Int) : Decidable (fitsInt x) := by
  unfold fitsInt; exact inferInstance

/-- The `/ 8.0` of line 24 followed by the store into an `int` cell: the `int` sum converts to
`double` exactly, dividing by a power of two is exact, and the conversion back truncates
toward zero. -/
def divBy8 (s : Int) : Int := Int.tdiv s 8

/-- The `nrow - 1` of line 20, in `std::size_t` arithmetic: 0 wraps to `2 ^ 64 - 1`. -/
def sizeSub1 (n : Nat) : Nat := if n = 0 then 2 ^ 64 - 1 else n - 1

/-! ## smooth_2d -/

/-- Checked read `buf(row, col)`: both indices are integers and must lie in the grid. -/
def readCell (nrow ncol : Nat) (buf : List Int) (row col : Int) : Option Int :=
  if 0 ≤ row ∧ row < nrow ∧ 0 ≤ col ∧ col < ncol then
    buf[(row * ncol + col).toNat]?
  else none

/-- Checked write `buf(row, col) = v`: both indices are integers and must lie in the grid. -/
def writeCell (nrow ncol : Nat) (buf : List Int) (row col : Int) (v : Int) : Option (List Int) :=
  if 0 ≤ row ∧ row < nrow ∧ 0 ≤ col ∧ col < ncol ∧ (row * ncol + col).toNat < buf.length then
    some (buf.set (row * ncol + col).toNat v)
  else none

/-- The right-hand side of lines 22-24: the eight neighbours of `(row, col)` in `data2dtmp`,
added left to right, over `8.0`. -/
def stencil (nrow ncol : Nat) (tmp : List Int) (row col : Int) : Option Int :=
  (readCell nrow ncol tmp (row - 1) (col - 1)).bind fun a =>
  (readCell nrow ncol tmp (row - 1) col).bind fun b =>
  (readCell nrow ncol tmp (row - 1) (col + 1)).bind fun c =>
  (readCell nrow ncol tmp row (col - 1)).bind fun d =>
  (readCell nrow ncol tmp row (col + 1)).bind fun e =>
  (readCell nrow ncol tmp (row + 1) (col - 1)).bind fun f =>
  (readCell nrow ncol tmp (row + 1) col).bind fun g =>
  (readCell nrow ncol tmp (row + 1) (col + 1)).bind fun h =>
  some (divBy8 (addInt (addInt (addInt (addInt (addInt (addInt (addInt a b) c) d) e) f) g) h))

/-- The loop of lines 21-25: `n` iterations from column `col` on, in row `row`; the counter
`col` is an `int`. -/
def colLoop (nrow ncol : Nat) (tmp : List Int) (row : Int) :
    Nat → Int → List Int → Option (List Int)
  | 0, _, smoth => some smoth
  | n + 1, col, smoth =>
    (stencil nrow ncol tmp row col).bind fun v =>
    (writeCell nrow ncol smoth row col v).bind fun smoth1 =>
    colLoop nrow ncol tmp row n (col + 1) smoth1

/-- The loop of lines 20-26: `m` iterations from row `row` on; the counter `row` is an
`int`. -/
def rowLoop (nrow ncol : Nat) (tmp : List Int) :
    Nat → Int → List Int → Option (List Int)
  | 0, _, smoth => some smoth
  | m + 1, row, smoth =>
    (colLoop nrow ncol tmp row (sizeSub1 ncol - 1) 1 smoth).bind fun smoth1 =>
    rowLoop nrow ncol tmp m (row + 1) smoth1

/-- The `std::copy` of line 27: the elements of `src` overwrite the front of `dst`. -/
def stdCopy (src dst : List Int) : Option (List Int) :=
  if src.length ≤ dst.length then some (src ++ dst.drop src.length) else none

/-- The loop of lines 19-28: `t` passes; the final `(data2dtmp, data2dsmoth)`. -/
def timeLoop (nrow ncol : Nat) :
    Nat → List Int → List Int → Option (List Int × List Int)
  | 0, tmp, smoth => some (tmp, smoth)
  | t + 1, tmp, smoth =>
    (rowLoop nrow ncol tmp (sizeSub1 nrow - 1) 1 smoth).bind fun smoth1 =>
    (stdCopy smoth1 tmp).bind fun tmp1 =>
    timeLoop nrow ncol t tmp1 smoth1

/-- The function `smooth_2d` (lines 10-30).  The loop of line 19 runs `tot_times` times, not
at all when `tot_times ≤ 0`.  The result is the final `data2dsmoth` (line 29); the storage
behind `data2dtmp`, which is the caller's, ends as the last copy of line 27 left it. -/
def smooth_2d (data2d : FlexInt) (tot_times : Int) : Option Outcome :=
  let ncol := data2d.ncol -- line 12
  let nrow := data2d.nrow -- line 13
  let data2dtmp := data2d.elems -- line 14, a handle on the storage of data2d
  let data2dsmoth := List.replicate (nrow * ncol) (0 : Int) -- line 15, fresh storage
  (timeLoop nrow ncol tot_times.toNat data2dtmp data2dsmoth).map fun p =>
    { result := ⟨nrow, ncol, p.2⟩, data2d := ⟨nrow, ncol, p.1⟩ }

/-! ## smooth_3d -/

/-- The right-hand side of lines 45-47. -/
def stencil3d (nrow ncol : Nat) (tmp : List Int) (row col : Int) : Option Int :=
  (readCell nrow ncol tmp (row - 1) (col - 1)).bind fun a =>
  (readCell nrow ncol tmp (row - 1) col).bind fun b =>
  (readCell nrow ncol tmp (row - 1) (col + 1)).bind fun c =>
  (readCell nrow ncol tmp row (col - 1)).bind fun d =>
  (readCell nrow ncol tmp row (col + 1)).bind fun e =>
  (readCell nrow ncol tmp (row + 1) (col - 1)).bind fun f =>
  (readCell nrow ncol tmp (row + 1) col).bind fun g =>
  (readCell nrow ncol tmp (row + 1) (col + 1)).bind fun h =>
  some (divBy8 (addInt (addInt (addInt (addInt (addInt (addInt (addInt a b) c) d) e) f) g) h))

/-- The loop of lines 44-48. -/
def colLoop3d (nrow ncol : Nat) (tmp : List Int) (row : Int) :
    Nat → Int → List Int → Option (List Int)
  | 0, _, smoth => some smoth
  | n + 1, col, smoth =>
    (stencil3d nrow ncol tmp row col).bind fun v =>
    (writeCell nrow ncol smoth row col v).bind fun smoth1 =>
    colLoop3d nrow ncol tmp row n (col + 1) smoth1

/-- The loop of lines 43-49. -/
def rowLoop3d (nrow ncol : Nat) (tmp : List Int) :
    Nat → Int → List Int → Option (List Int)
  | 0, _, smoth => some smoth
  | m + 1, row, smoth =>
    (colLoop3d nrow ncol tmp row (sizeSub1 ncol - 1) 1 smoth).bind fun smoth1 =>
    rowLoop3d nrow ncol tmp m (row + 1) smoth1

/-- The loop of lines 42-51. -/
def timeLoop3d (nrow ncol : Nat) :
    Nat → List Int → List Int → Option (List Int × List Int)
  | 0, tmp, smoth => some (tmp, smoth)
  | t + 1, tmp, smoth =>
    (rowLoop3d nrow ncol tmp (sizeSub1 nrow - 1) 1 smoth).bind fun smoth1 =>
    (stdCopy smoth1 tmp).bind fun tmp1 =>
    timeLoop3d nrow ncol t tmp1 smoth1

/-- The function `smooth_3d` (lines 33-53); `all()[0]` and `all()[1]` are the first two
extents of its argument. -/
def smooth_3d (data2d : FlexInt) (tot_times : Int) : Option Outcome :=
  let ncol := data2d.ncol -- line 35
  let nrow := data2d.nrow -- line 36
  let data2dtmp := data2d.elems -- line 37, a handle on the storage of data2d
  let data2dsmoth := List.replicate (nrow * ncol) (0 : Int) -- line 38, fresh storage
  (timeLoop3d nrow ncol tot_times.toNat data2dtmp data2dsmoth).map fun p =>
    { result := ⟨nrow, ncol, p.2⟩, data2d := ⟨nrow, ncol, p.1⟩ }

/-! ## Shoebox -/

/-- The six bounds of a bounding box, `int6`. -/
structure Int6 where
  x0 : Int
  x1 : Int
  y0 : Int
  y1 : Int
  z0 : Int
  z1 : Int
deriving DecidableEq, Repr

/-- The `bbox` member of a `Shoebox`, the one `get_bbox` and `set_bbox` access. -/
structure Shoebox where
  bbox : Int6
deriving DecidableEq, Repr

/-- The accessor `get_bbox` (lines 19-21 of `shoebox.cc`). -/
def get_bbox (obj : Shoebox) : Int6 := obj.bbox

/-- The accessor `set_bbox` (lines 23-25 of `shoebox.cc`). -/
def set_bbox (obj : Shoebox) (v : Int6) : Shoebox := { obj with bbox := v }

/-- Modelled from the spec: `Shoebox::is_bbox_within_image_volume` is defined in
`dials/model/data/shoebox.h`, which is not among the sources (`shoebox.cc` only exports it).
Given the detector's `(width, height)` and the scan's `(start_frame, end_frame)` it
returns true iff x0≥0, y0≥0, x1≤width, y1≤height, z0≥start_frame, z1≤end_frame. -/
def Shoebox.is_bbox_within_image_volume (s : Shoebox) (image_size : Int × Int)
    (scan_range : Int × Int) : Bool :=
  decide (0 ≤ s.bbox.x0) && decide (0 ≤ s.bbox.y0) &&
  decide (s.bbox.x1 ≤ image_size.1) && decide (s.bbox.y1 ≤ image_size.2) &&
  decide (scan_range.1 ≤ s.bbox.z0) && decide (s.bbox.z1 ≤ scan_range.2)

/-! ## Reference values used in the statements -/

/-- The value the stencil stores at `(row, col)`, read off a buffer without checks. -/
def avg8 (ncol : Nat) (tmp : List Int) (row col : Nat) : Int :=
  divBy8 (addInt (addInt (addInt (addInt (addInt (addInt (addInt
    (cell ncol tmp (row - 1) (col - 1)) (cell ncol tmp (row - 1) col))
    (cell ncol tmp (row - 1) (col + 1)))
    (cell ncol tmp row (col - 1))) (cell ncol tmp row (col + 1)))
    (cell ncol tmp (row + 1) (col - 1))) (cell ncol tmp (row + 1) col))
    (cell ncol tmp (row + 1) (col + 1)))

/-- The array of the given extents whose cells all hold `k`. -/
def uniform (nrow ncol : Nat) (k : Int) : FlexInt :=
  ⟨nrow, ncol, List.replicate (nrow * ncol) k⟩

/-- The eight neighbours of `(row, col)`, in the order lines 22-24 add them. -/
def neighbours (a : FlexInt) (row col : Nat) : List Int :=
  [a.at (row - 1) (col - 1), a.at (row - 1) col, a.at (row - 1) (col + 1),
   a.at row (col - 1), a.at row (col + 1),
   a.at (row + 1) (col - 1), a.at (row + 1) col, a.at (row + 1) (col + 1)]

/-- Every sum formed while the values are added left to right is representable as `int`. -/
def sumsFit : Int → List Int → Prop
  | _, [] => True
  | acc, x :: xs => fitsInt (acc + x) ∧ sumsFit (acc + x) xs

instance sumsFitDecidable : (acc : Int) → (xs : List Int) → Decidable (sumsFit acc xs)
  | _, [] => isTrue trivial
  | acc, x :: xs =>
    have := sumsFitDecidable (acc + x) xs
    inferInstanceAs (Decidable (fitsInt (acc + x) ∧ sumsFit (acc + x) xs))

/-- No addition of lines 22-24 overflows at `(row, col)`. -/
def noOverflowAt (a : FlexInt) (row col : Nat) : Prop :=
  sumsFit 0 (neighbours a row col)

instance (a : FlexInt) (row col : Nat) : Decidable (noOverflowAt a row col) := by
  unfold noOverflowAt; exact inferInstance

/-- A cell of the outermost ring: first row, last row, first column or last column. -/
def onRing (nrow ncol row col : Nat) : Prop :=
  row < nrow ∧ col < ncol ∧ (row = 0 ∨ row + 1 = nrow ∨ col = 0 ∨ col + 1 = ncol)

/-- The cells the stencil assigns: not on the outermost ring. -/
def interior (nrow ncol row col : Nat) : Prop :=
  1 ≤ row ∧ row + 1 < nrow ∧ 1 ≤ col ∧ col + 1 < ncol

instance (nrow ncol row col : Nat) : Decidable (interior nrow ncol row col) := by
  unfold interior; exact inferInstance

/-! ## Index arithmetic -/

theorem sizeSub1_eq {n : Nat} (h1 : 1 ≤ n) : sizeSub1 n = n - 1 := by
  unfold sizeSub1
  rw [if_neg (by omega)]

/-- The subtraction is the one of arithmetic modulo `2 ^ 64`. -/
theorem sizeSub1_mod {n : Nat} (h : n < 2 ^ 64) : sizeSub1 n = (n + 2 ^ 64 - 1) % 2 ^ 64 := by
  unfold sizeSub1
  split <;> omega

theorem idx_lt {nrow ncol r c : Nat} (hr : r < nrow) (hc : c < ncol) :
    r * ncol + c < nrow * ncol := by
  have h : (r + 1) * ncol ≤ nrow * ncol := Nat.mul_le_mul_right _ hr
  rw [Nat.add_mul] at h
  omega

theorem idx_inj {ncol r c r' c' : Nat} (hc : c < ncol) (hc' : c' < ncol)
    (h : r * ncol + c = r' * ncol + c') : r = r' ∧ c = c' := by
  rcases Nat.lt_trichotomy r r' with hlt | heq | hgt
  · have h1 : (r + 1) * ncol ≤ r' * ncol := Nat.mul_le_mul_right _ hlt
    rw [Nat.add_mul] at h1
    omega
  · subst heq
    exact ⟨rfl, by omega⟩
  · have h1 : (r' + 1) * ncol ≤ r * ncol := Nat.mul_le_mul_right _ hgt
    rw [Nat.add_mul] at h1
    omega

/-! ## Checked accesses inside the grid -/

theorem idx_toNat (ncol r c : Nat) : ((r : Int) * ncol + c).toNat = r * ncol + c := by
  rw [← Nat.cast_mul, ← Nat.cast_add, Int.toNat_ofNat]

theorem readCell_eq {nrow ncol : Nat} {buf : List Int} (hlen : buf.length = nrow * ncol)
    {r c : Nat} (hr : r < nrow) (hc : c < ncol) {i j : Int} (hi : i = r) (hj : j = c) :
    readCell nrow ncol buf i j = some (cell ncol buf r c) := by
  subst hi; subst hj
  have hlt : r * ncol + c < buf.length := hlen ▸ idx_lt hr hc
  unfold readCell cell
  rw [if_pos ⟨by omega, by omega, by omega, by omega⟩, idx_toNat,
    List.getD_eq_getElem?_getD, List.getElem?_eq_getElem hlt]
  rfl

theorem writeCell_eq {nrow ncol : Nat} {buf : List Int} (hlen : buf.length = nrow * ncol)
    {r c : Nat} (hr : r < nrow) (hc : c < ncol) (v : Int) :
    writeCell nrow ncol buf r c v = some (buf.set (r * ncol + c) v) := by
  have hlt : r * ncol + c < buf.length := hlen ▸ idx_lt hr hc
  unfold writeCell
  rw [idx_toNat, if_pos ⟨by omega, by omega, by omega, by omega, hlt⟩]

/-- A read that succeeds has both indices in the grid. -/
theorem readCell_in_grid {nrow ncol : Nat} {buf : List Int} {row col v : Int}
    (h : readCell nrow ncol buf row col = some v) :
    0 ≤ row ∧ row < nrow ∧ 0 ≤ col ∧ col < ncol := by
  unfold readCell at h
  split at h
  · assumption
  · exact absurd h (by simp)

/-- A write that succeeds has both indices in the grid. -/
theorem writeCell_in_grid {nrow ncol : Nat} {buf s : List Int} {row col v : Int}
    (h : writeCell nrow ncol buf row col v = some s) :
    0 ≤ row ∧ row < nrow ∧ 0 ≤ col ∧ col < ncol := by
  unfold writeCell at h
  split at h
  · rename_i hc
    exact ⟨hc.1, hc.2.1, hc.2.2.1, hc.2.2.2.1⟩
  · exact absurd h (by simp)

theorem cell_set {nrow ncol : Nat} {buf : List Int} (hlen : buf.length = nrow * ncol)
    {r c r' c' : Nat} (hr : r < nrow) (hc : c < ncol) (hc' : c' < ncol) (v : Int) :
    cell ncol (buf.set (r * ncol + c) v) r' c' =
      if r' = r ∧ c' = c then v else cell ncol buf r' c' := by
  have hi : r * ncol + c < buf.length := hlen ▸ idx_lt hr hc
  unfold cell
  by_cases h : r' = r ∧ c' = c
  · obtain ⟨h1, h2⟩ := h
    subst h1; subst h2
    simp [List.getD_eq_getElem?_getD, hi]
  · have hne : r * ncol + c ≠ r' * ncol + c' := by
      intro he
      have := idx_inj hc hc' he
      exact h ⟨this.1.symm, this.2.symm⟩
    simp [List.getD_eq_getElem?_getD, List.getElem?_set_ne hne, h]

theorem stencil_eq {nrow ncol : Nat} {tmp : List Int} (hlen : tmp.length = nrow * ncol)
    {row col : Nat} (h : interior nrow ncol row col) :
    stencil nrow ncol tmp row col = some (avg8 ncol tmp row col) := by
  obtain ⟨h1, h2, h3, h4⟩ := h
  unfold stencil avg8
  rw [readCell_eq hlen (r := row - 1) (c := col - 1) (by omega) (by omega) (by omega) (by omega),
    readCell_eq hlen (r := row - 1) (c := col) (by omega) (by omega) (by omega) rfl,
    readCell_eq hlen (r := row - 1) (c := col + 1) (by omega) (by omega) (by omega) (by omega),
    readCell_eq hlen (r := row) (c := col - 1) (by omega) (by omega) rfl (by omega),
    readCell_eq hlen (r := row) (c := col + 1) (by omega) (by omega) rfl (by omega),
    readCell_eq hlen (r := row + 1) (c := col - 1) (by omega) (by omega) (by omega) (by omega),
    readCell_eq hlen (r := row + 1) (c := col) (by omega) (by omega) (by omega) rfl,
    readCell_eq hlen (r := row + 1) (c := col + 1) (by omega) (by omega) (by omega) (by omega)]
  rfl

/-! ## What one pass does -/

theorem colLoop_spec {nrow ncol : Nat} {tmp : List Int} (htmp : tmp.length = nrow * ncol)
    {row : Nat} (hr1 : 1 ≤ row) (hr2 : row + 1 < nrow) :
    ∀ (n col : Nat) (smoth : List Int), smoth.length = nrow * ncol → 1 ≤ col →
      (n = 0 ∨ col + n + 1 ≤ ncol) →
      ∃ s, colLoop nrow ncol tmp row n col smoth = some s ∧ s.length = nrow * ncol ∧
        ∀ r' c', c' < ncol → cell ncol s r' c' =
          if r' = row ∧ col ≤ c' ∧ c' < col + n then avg8 ncol tmp row c'
          else cell ncol smoth r' c' := by
  intro n
  induction n with
  | zero =>
    intro col smoth hlen _ _
    refine ⟨smoth, rfl, hlen, ?_⟩
    intro r' c' _
    rw [if_neg (by omega)]
  | succ n ih =>
    intro col smoth hlen hc hn
    have hcol : col + n + 2 ≤ ncol := by omega
    have hint : interior nrow ncol row col := ⟨hr1, hr2, hc, by omega⟩
    have hlen1 : (smoth.set (row * ncol + col) (avg8 ncol tmp row col)).length = nrow * ncol := by
      rw [List.length_set]; exact hlen
    obtain ⟨s, hs, hslen, hcells⟩ := ih (col + 1)
      (smoth.set (row * ncol + col) (avg8 ncol tmp row col)) hlen1 (by omega) (by omega)
    refine ⟨s, ?_, hslen, ?_⟩
    · simp only [colLoop, stencil_eq htmp hint, Option.some_bind,
        writeCell_eq hlen (show row < nrow by omega) (show col < ncol by omega)]
      exact hs
    · intro r' c' hc'
      rw [hcells r' c' hc',
        cell_set hlen (show row < nrow by omega) (show col < ncol by omega) hc']
      by_cases h1 : r' = row ∧ col + 1 ≤ c' ∧ c' < col + 1 + n
      · rw [if_pos h1, if_pos (by omega)]
      · rw [if_neg h1]
        by_cases h2 : r' = row ∧ c' = col
        · rw [if_pos h2, if_pos (by omega), h2.2]
        · rw [if_neg h2, if_neg (by omega)]

theorem rowLoop_spec {nrow ncol : Nat} {tmp : List Int} (htmp : tmp.length = nrow * ncol)
    (hc1 : 1 ≤ ncol) :
    ∀ (m row : Nat) (smoth : List Int), smoth.length = nrow * ncol → 1 ≤ row →
      (m = 0 ∨ row + m + 1 ≤ nrow) →
      ∃ s, rowLoop nrow ncol tmp m row smoth = some s ∧ s.length = nrow * ncol ∧
        ∀ r' c', c' < ncol → cell ncol s r' c' =
          if row ≤ r' ∧ r' < row + m ∧ 1 ≤ c' ∧ c' + 1 < ncol then avg8 ncol tmp r' c'
          else cell ncol smoth r' c' := by
  intro m
  induction m with
  | zero =>
    intro row smoth hlen _ _
    refine ⟨smoth, rfl, hlen, ?_⟩
    intro r' c' _
    rw [if_neg (by omega)]
  | succ m ih =>
    intro row smoth hlen hr hm
    have hcn : sizeSub1 ncol - 1 = ncol - 2 := by rw [sizeSub1_eq hc1]; omega
    obtain ⟨s1, hs1, hs1len, hcells1⟩ := colLoop_spec htmp hr (show row + 1 < nrow by omega)
      (ncol - 2) 1 smoth hlen (le_refl 1) (by omega)
    obtain ⟨s, hs, hslen, hcells⟩ := ih (row + 1) s1 hs1len (by omega) (by omega)
    have e : ((row + 1 : Nat) : Int) = (row : Int) + 1 := by push_cast; rfl
    rw [e] at hs
    have e1 : ((1 : Nat) : Int) = 1 := rfl
    rw [e1] at hs1
    refine ⟨s, ?_, hslen, ?_⟩
    · simp only [rowLoop, hcn, hs1, Option.some_bind]
      exact hs
    · intro r' c' hc'
      rw [hcells r' c' hc', hcells1 r' c' hc']
      by_cases h1 : row + 1 ≤ r' ∧ r' < row + 1 + m ∧ 1 ≤ c' ∧ c' + 1 < ncol
      · rw [if_pos h1, if_pos (by omega)]
      · rw [if_neg h1]
        by_cases h2 : r' = row ∧ 1 ≤ c' ∧ c' < 1 + (ncol - 2)
        · rw [if_pos h2, if_pos (by omega), h2.1]
        · rw [if_neg h2, if_neg (by omega)]

/-- One pass over a non-empty grid succeeds, assigns the stencil value to every interior cell
and leaves the other cells of `data2dsmoth` as they were. -/
theorem pass_spec {nrow ncol : Nat} {tmp smoth : List Int}
    (hr1 : 1 ≤ nrow) (hc1 : 1 ≤ ncol)
    (htmp : tmp.length = nrow * ncol) (hlen : smoth.length = nrow * ncol) :
    ∃ s, rowLoop nrow ncol tmp (sizeSub1 nrow - 1) 1 smoth = some s ∧
      s.length = nrow * ncol ∧
      ∀ r c, c < ncol → cell ncol s r c =
        if interior nrow ncol r c then avg8 ncol tmp r c else cell ncol smoth r c := by
  have hrn : sizeSub1 nrow - 1 = nrow - 2 := by rw [sizeSub1_eq hr1]; omega
  obtain ⟨s, hs, hslen, hcells⟩ := rowLoop_spec htmp hc1 (nrow - 2) 1 smoth hlen
    (le_refl 1) (by omega)
  refine ⟨s, by rw [hrn]; exact hs, hslen, ?_⟩
  intro r c hc
  rw [hcells r c hc]
  by_cases h : interior nrow ncol r c
  · rw [if_pos h]
    unfold interior at h
    rw [if_pos (by omega)]
  · rw [if_neg h]
    unfold interior at h
    rw [if_neg (by omega)]

/-- Two buffers of a grid that agree cell for cell are equal. -/
theorem buf_ext {nrow ncol : Nat} {l1 l2 : List Int} (h1 : l1.length = nrow * ncol)
    (h2 : l2.length = nrow * ncol)
    (h : ∀ r c, r < nrow → c < ncol → cell ncol l1 r c = cell ncol l2 r c) : l1 = l2 := by
  apply List.ext_getElem (h1.trans h2.symm)
  intro i hi1 hi2
  have hpos : 0 < ncol := by
    rcases Nat.eq_zero_or_pos ncol with h0 | h0
    · rw [h0, Nat.mul_zero] at h1; omega
    · exact h0
  have hdiv : i / ncol < nrow := by
    apply Nat.div_lt_of_lt_mul
    rw [Nat.mul_comm]; omega
  have hmod : i % ncol < ncol := Nat.mod_lt _ hpos
  have hc := h (i / ncol) (i % ncol) hdiv hmod
  unfold cell at hc
  rw [Nat.div_add_mod' i ncol] at hc
  simpa [List.getD_eq_getElem?_getD, List.getElem?_eq_getElem hi1,
    List.getElem?_eq_getElem hi2] using hc

/-! ## What the passes do -/

theorem stdCopy_same {src dst : List Int} (h : src.length = dst.length) :
    stdCopy src dst = some src := by
  unfold stdCopy
  rw [if_pos (by omega), h, List.drop_length, List.append_nil]

/-- After a pass over a non-empty grid the copy gives `data2dtmp` the contents of
`data2dsmoth`, and the next pass starts from there. -/
theorem timeLoop_step {nrow ncol : Nat} {tmp smoth : List Int}
    (hr1 : 1 ≤ nrow) (hc1 : 1 ≤ ncol)
    (htmp : tmp.length = nrow * ncol) (hlen : smoth.length = nrow * ncol) (t : Nat) :
    ∃ s, s.length = nrow * ncol ∧
      (∀ r c, c < ncol → cell ncol s r c =
        if interior nrow ncol r c then avg8 ncol tmp r c else cell ncol smoth r c) ∧
      timeLoop nrow ncol (t + 1) tmp smoth = timeLoop nrow ncol t s s := by
  obtain ⟨s, hs, hslen, hcells⟩ := pass_spec hr1 hc1 htmp hlen
  refine ⟨s, hslen, hcells, ?_⟩
  simp only [timeLoop, hs, Option.some_bind, stdCopy_same (hslen.trans htmp.symm)]

/-- On a non-empty grid the passes run to completion; cells off the interior of
`data2dsmoth` are never assigned, and from the first pass on `data2dtmp` holds what
`data2dsmoth` holds. -/
theorem timeLoop_total {nrow ncol : Nat}
    (hr1 : 1 ≤ nrow) (hc1 : 1 ≤ ncol) :
    ∀ (t : Nat) (tmp smoth : List Int), tmp.length = nrow * ncol →
      smoth.length = nrow * ncol →
      ∃ p, timeLoop nrow ncol t tmp smoth = some p ∧ p.1.length = nrow * ncol ∧
        p.2.length = nrow * ncol ∧ (1 ≤ t → p.1 = p.2) ∧
        ∀ r c, c < ncol → ¬ interior nrow ncol r c → cell ncol p.2 r c = cell ncol smoth r c := by
  intro t
  induction t with
  | zero =>
    intro tmp smoth htmp hlen
    exact ⟨(tmp, smoth), rfl, htmp, hlen, by omega, fun _ _ _ _ => rfl⟩
  | succ t ih =>
    intro tmp smoth htmp hlen
    obtain ⟨s, hslen, hcells, hstep⟩ := timeLoop_step hr1 hc1 htmp hlen t
    obtain ⟨p, hp, hp1, hp2, hp3, hp4⟩ := ih s s hslen hslen
    refine ⟨p, hstep.trans hp, hp1, hp2, ?_, ?_⟩
    · intro _
      rcases Nat.eq_zero_or_pos t with h0 | h0
      · subst h0
        simp only [timeLoop, Option.some.injEq] at hp
        rw [← hp]
      · exact hp3 h0
    · intro r c hc hni
      rw [hp4 r c hc hni, hcells r c hc, if_neg hni]

theorem cell_replicate (ncol n : Nat) (k : Int) (r c : Nat) (h : r * ncol + c < n) :
    cell ncol (List.replicate n k) r c = k := by
  unfold cell
  simp [List.getD_eq_getElem?_getD, List.getElem?_replicate, h]

theorem cell_replicate_zero (ncol n : Nat) (r c : Nat) :
    cell ncol (List.replicate n (0 : Int)) r c = 0 := by
  unfold cell
  by_cases h : r * ncol + c < n
  · simp [List.getD_eq_getElem?_getD, List.getElem?_replicate, h]
  · simp [List.getD_eq_getElem?_getD, List.getElem?_replicate, h]

/-- A call on a well-formed, non-empty array returns: the result has the input's extents, its
cells off the interior are 0, and once a pass has run the caller's storage holds the result. -/
theorem smooth_2d_run (d : FlexInt) (hwf : d.WF) (hr : 1 ≤ d.nrow) (hc : 1 ≤ d.ncol)
    (t : Int) :
    ∃ o, smooth_2d d t = some o ∧ o.result.nrow = d.nrow ∧ o.result.ncol = d.ncol ∧
      o.result.elems.length = d.nrow * d.ncol ∧ (1 ≤ t → o.data2d = o.result) ∧
      ∀ r c, c < d.ncol → ¬ interior d.nrow d.ncol r c → o.result.at r c = 0 := by
  obtain ⟨h1, h2, h3⟩ := hwf
  obtain ⟨p, hp, _, hp2, hp3, hp4⟩ := timeLoop_total hr hc t.toNat
    d.elems (List.replicate (d.nrow * d.ncol) 0) h3 (List.length_replicate _ _)
  refine ⟨⟨⟨d.nrow, d.ncol, p.2⟩, ⟨d.nrow, d.ncol, p.1⟩⟩, ?_, rfl, rfl, hp2, ?_, ?_⟩
  · simp only [smooth_2d, hp, Option.map_some']
  · intro ht
    rw [hp3 (by omega)]
  · intro r c hc' hni
    show cell d.ncol p.2 r c = 0
    rw [hp4 r c hc' hni, cell_replicate_zero]

/-! ## Zero passes -/

/-- Counterexample to C1: on the 3x3 array 1..9, `smooth_2d` with `tot_times = 0` returns
the all-zero array, not the input. -/
theorem smooth_2d_zero_times_not_input :
    (smooth_2d ⟨3, 3, [1, 2, 3, 4, 5, 6, 7, 8, 9]⟩ 0).map Outcome.result =
        some ⟨3, 3, [0, 0, 0, 0, 0, 0, 0, 0, 0]⟩ ∧
    (smooth_2d ⟨3, 3, [1, 2, 3, 4, 5, 6, 7, 8, 9]⟩ 0).map Outcome.result ≠
        some ⟨3, 3, [1, 2, 3, 4, 5, 6, 7, 8, 9]⟩ := by
  decide

/-- C1 as amended: for every array (so for every one with at least 3 rows and 3 columns),
`smooth_2d` with `tot_times = 0` returns the array of the input's extents whose cells are all
0, the zero-initialised `data2dsmoth`; the caller's array is as it was. -/
theorem smooth_2d_zero_times (d : FlexInt) :
    smooth_2d d 0 = some ⟨⟨d.nrow, d.ncol, List.replicate (d.nrow * d.ncol) 0⟩, d⟩ ∧
    ∀ row col, (FlexInt.mk d.nrow d.ncol (List.replicate (d.nrow * d.ncol) 0)).at row col = 0 := by
  constructor
  · rfl
  · intro row col
    exact cell_replicate_zero _ _ _ _

/-! ## The outermost ring -/

/-- Counterexample to C2: on the 3x3 array 1..9 one pass returns a ring of zeros; the corner
`(0, 0)` of the result is 0 where the input has 1. -/
theorem smooth_2d_ring_not_input :
    (smooth_2d ⟨3, 3, [1, 2, 3, 4, 5, 6, 7, 8, 9]⟩ 1).map Outcome.result =
        some ⟨3, 3, [0, 0, 0, 0, 5, 0, 0, 0, 0]⟩ ∧
    (FlexInt.mk 3 3 [0, 0, 0, 0, 5, 0, 0, 0, 0]).at 0 0 ≠
      (FlexInt.mk 3 3 [1, 2, 3, 4, 5, 6, 7, 8, 9]).at 0 0 := by
  decide

/-- C2 as amended: for every array with at least 3 rows and 3 columns and every
`tot_times >= 1`, each cell on the outermost ring of the array `smooth_2d` returns is 0. -/
theorem smooth_2d_ring_zero (d : FlexInt) (tot_times : Int) (hwf : d.WF)
    (hr : 3 ≤ d.nrow) (hc : 3 ≤ d.ncol) (_ht : 1 ≤ tot_times) :
    ∃ o, smooth_2d d tot_times = some o ∧ o.result.nrow = d.nrow ∧ o.result.ncol = d.ncol ∧
      ∀ row col, onRing d.nrow d.ncol row col → o.result.at row col = 0 := by
  obtain ⟨o, ho, hn, hm, _, _, hcells⟩ := smooth_2d_run d hwf (by omega) (by omega) tot_times
  refine ⟨o, ho, hn, hm, ?_⟩
  intro row col hring
  obtain ⟨_, h2, h3⟩ := hring
  apply hcells row col h2
  unfold interior
  omega

/-- The ring statement of C2 at the 3x3 array 1..9 with two passes. -/
theorem smooth_2d_ring_zero_witness :
    ∃ o, smooth_2d ⟨3, 3, [1, 2, 3, 4, 5, 6, 7, 8, 9]⟩ 2 = some o ∧
      o.result.nrow = 3 ∧ o.result.ncol = 3 ∧
      ∀ row col, onRing 3 3 row col → o.result.at row col = 0 :=
  smooth_2d_ring_zero ⟨3, 3, [1, 2, 3, 4, 5, 6, 7, 8, 9]⟩ 2 (by decide) (by decide) (by decide)
    (by decide)

/-! ## Error reporting -/

/-- Counterexample to C7: with `tot_times = 0` on a 4x3 array, and with one pass on a 2x3
array, `smooth_2d` returns an array (all zeros) instead of reporting an error. -/
theorem smooth_2d_degenerate_returns :
    (smooth_2d ⟨4, 3, [3, 1, 4, 1, 5, 9, 2, 6, 5, 3, 5, 8]⟩ 0).map Outcome.result =
        some ⟨4, 3, [0, 0, 0, 0, 0, 0, 0, 0, 0, 0, 0, 0]⟩ ∧
    (smooth_2d ⟨2, 3, [1, 2, 3, 4, 5, 6]⟩ 1).map Outcome.result =
        some ⟨2, 3, [0, 0, 0, 0, 0, 0]⟩ := by
  decide

/-- C7 as amended: `smooth_2d` has no error path; when `tot_times` is 0 (or negative) or the
array has one or two rows or one or two columns, the loops assign no cell and the call
returns the array of the input's extents whose cells are all 0. -/
theorem smooth_2d_degenerate_zero (d : FlexInt) (tot_times : Int) (hwf : d.WF)
    (hr : 1 ≤ d.nrow) (hc : 1 ≤ d.ncol)
    (hdeg : tot_times ≤ 0 ∨ d.nrow < 3 ∨ d.ncol < 3) :
    ∃ o, smooth_2d d tot_times = some o ∧
      o.result = ⟨d.nrow, d.ncol, List.replicate (d.nrow * d.ncol) 0⟩ := by
  rcases hdeg with h0 | hdim
  · refine ⟨⟨⟨d.nrow, d.ncol, List.replicate (d.nrow * d.ncol) 0⟩, d⟩, ?_, rfl⟩
    have h : tot_times.toNat = 0 := by omega
    simp only [smooth_2d, h, timeLoop, Option.map_some']
  · obtain ⟨o, ho, hn, hm, hlen, _, hcells⟩ := smooth_2d_run d hwf hr hc tot_times
    refine ⟨o, ho, ?_⟩
    rcases o with ⟨⟨n, m, l⟩, d2⟩
    simp only at hn hm hlen hcells ⊢
    subst hn; subst hm
    congr 1
    apply buf_ext hlen (List.length_replicate _ _)
    intro r c _ hc'
    have hni : ¬ interior d.nrow d.ncol r c := by unfold interior; omega
    have := hcells r c hc' hni
    simp only [FlexInt.at] at this
    rw [this, cell_replicate_zero]

/-- The statement of C7 as amended at a 2x3 array with four passes. -/
theorem smooth_2d_degenerate_zero_witness :
    ∃ o, smooth_2d ⟨2, 3, [1, 2, 3, 4, 5, 6]⟩ 4 = some o ∧
      o.result = ⟨2, 3, List.replicate (2 * 3) 0⟩ :=
  smooth_2d_degenerate_zero ⟨2, 3, [1, 2, 3, 4, 5, 6]⟩ 4 (by decide) (by decide) (by decide)
    (by decide)

/-! ## Index safety -/

/-- C10: on an array with at least one row and one column, for every `tot_times`, the
bounds `nrow - 1` and `ncol - 1` do not wrap; at every `(row, col)` the counters reach, the
index expressions `row - 1`, `row + 1`, `col - 1`, `col + 1` lie in `[0, nrow)` and
`[0, ncol)`, so the eight reads of `data2dtmp` and the write of `data2dsmoth` succeed; an
access succeeds only inside the grid; and the whole call returns without an out-of-bounds
access. -/
theorem smooth_2d_in_bounds (d : FlexInt) (tot_times : Int) (hwf : d.WF)
    (hr : 1 ≤ d.nrow) (hc : 1 ≤ d.ncol) :
    sizeSub1 d.nrow + 1 = d.nrow ∧ sizeSub1 d.ncol + 1 = d.ncol ∧
    (∀ row col : Int, 1 ≤ row → row < sizeSub1 d.nrow → 1 ≤ col → col < sizeSub1 d.ncol →
      (0 ≤ row - 1 ∧ row + 1 < d.nrow ∧ 0 ≤ col - 1 ∧ col + 1 < d.ncol) ∧
      ∀ buf : List Int, buf.length = d.nrow * d.ncol →
        (stencil d.nrow d.ncol buf row col).isSome = true ∧
        ∀ v, (writeCell d.nrow d.ncol buf row col v).isSome = true) ∧
    (∀ (buf : List Int) (row col v : Int), readCell d.nrow d.ncol buf row col = some v →
      0 ≤ row ∧ row < d.nrow ∧ 0 ≤ col ∧ col < d.ncol) ∧
    (∀ (buf s : List Int) (row col v : Int), writeCell d.nrow d.ncol buf row col v = some s →
      0 ≤ row ∧ row < d.nrow ∧ 0 ≤ col ∧ col < d.ncol) ∧
    ∃ o, smooth_2d d tot_times = some o := by
  obtain ⟨o, ho, _⟩ := smooth_2d_run d hwf hr hc tot_times
  have e1 : sizeSub1 d.nrow = d.nrow - 1 := sizeSub1_eq hr
  have e2 : sizeSub1 d.ncol = d.ncol - 1 := sizeSub1_eq hc
  refine ⟨by omega, by omega, ?_, fun _ _ _ _ h => readCell_in_grid h,
    fun _ _ _ _ _ h => writeCell_in_grid h, o, ho⟩
  intro row col h1 h2 h3 h4
  rw [e1] at h2
  rw [e2] at h4
  refine ⟨by omega, ?_⟩
  intro buf hlen
  obtain ⟨r, hrow⟩ : ∃ r : Nat, row = r := ⟨row.toNat, by omega⟩
  obtain ⟨c, hcol⟩ : ∃ c : Nat, col = c := ⟨col.toNat, by omega⟩
  subst hrow; subst hcol
  have hin : interior d.nrow d.ncol r c := by unfold interior; omega
  constructor
  · rw [stencil_eq hlen hin]; rfl
  · intro v
    rw [writeCell_eq hlen (show r < d.nrow by omega) (show c < d.ncol by omega)]; rfl

/-- The statement of C10 at a 4x5 array with two passes: six interior cells, each read
through its eight neighbours and written in both passes. -/
theorem smooth_2d_in_bounds_witness :
    sizeSub1 4 + 1 = 4 ∧ sizeSub1 5 + 1 = 5 ∧
    (∀ row col : Int, 1 ≤ row → row < sizeSub1 4 → 1 ≤ col → col < sizeSub1 5 →
      (0 ≤ row - 1 ∧ row + 1 < (4 : Nat) ∧ 0 ≤ col - 1 ∧ col + 1 < (5 : Nat)) ∧
      ∀ buf : List Int, buf.length = 4 * 5 →
        (stencil 4 5 buf row col).isSome = true ∧
        ∀ v, (writeCell 4 5 buf row col v).isSome = true) ∧
    (∀ (buf : List Int) (row col v : Int), readCell 4 5 buf row col = some v →
      0 ≤ row ∧ row < (4 : Nat) ∧ 0 ≤ col ∧ col < (5 : Nat)) ∧
    (∀ (buf s : List Int) (row col v : Int), writeCell 4 5 buf row col v = some s →
      0 ≤ row ∧ row < (4 : Nat) ∧ 0 ≤ col ∧ col < (5 : Nat)) ∧
    ∃ o, smooth_2d ⟨4, 5, [800, 100, 600, 300, 90, 500, 700, 400, 900, 50,
      200, 1600, -300, 500, 77, 1100, 0, 700, 1200, 31]⟩ 2 = some o :=
  smooth_2d_in_bounds ⟨4, 5, [800, 100, 600, 300, 90, 500, 700, 400, 900, 50,
    200, 1600, -300, 500, 77, 1100, 0, 700, 1200, 31]⟩ 2 (by decide) (by decide) (by decide)

/-- The two passes on that 4x5 array, evaluated: every stencil read and every write is
inside the grid and the six interior cells come out as shown. -/
theorem smooth_2d_in_bounds_values :
    (smooth_2d ⟨4, 5, [800, 100, 600, 300, 90, 500, 700, 400, 900, 50,
      200, 1600, -300, 500, 77, 1100, 0, 700, 1200, 31]⟩ 2).map Outcome.result =
    some ⟨4, 5, [0, 0, 0, 0, 0, 0, 214, 280, 210, 0, 0, 223, 255, 189, 0, 0, 0, 0, 0, 0]⟩ := by
  decide

/-- Outside the range of the counters the checks do reject: the stencil at `(0, 0)` would
read row `-1`, and at `(1, 2)` of a 3x3 grid column `3`. -/
theorem stencil_rejects_outside :
    stencil 3 3 [1, 2, 3, 4, 5, 6, 7, 8, 9] 0 0 = none ∧
    stencil 3 3 [1, 2, 3, 4, 5, 6, 7, 8, 9] 1 2 = none ∧
    readCell 3 3 [1, 2, 3, 4, 5, 6, 7, 8, 9] (-1) 1 = none ∧
    writeCell 3 3 [1, 2, 3, 4, 5, 6, 7, 8, 9] 1 3 0 = none := by
  decide

/-- Without a row the bound `nrow - 1` wraps and the first read already leaves the grid. -/
theorem smooth_2d_no_row_out_of_bounds :
    sizeSub1 0 = 2 ^ 64 - 1 ∧ smooth_2d ⟨0, 3, []⟩ 1 = none := by
  decide

/-! ## The caller's array -/

/-- C5 at a failing input: one pass on the 3x3 array 1..9 leaves the caller's `data2d`
holding the returned array, ring zeroed and centre 5, not the values it held before. -/
theorem smooth_2d_overwrites_input :
    smooth_2d ⟨3, 3, [1, 2, 3, 4, 5, 6, 7, 8, 9]⟩ 1 =
      some ⟨⟨3, 3, [0, 0, 0, 0, 5, 0, 0, 0, 0]⟩, ⟨3, 3, [0, 0, 0, 0, 5, 0, 0, 0, 0]⟩⟩ ∧
    (FlexInt.mk 3 3 [0, 0, 0, 0, 5, 0, 0, 0, 0]) ≠ ⟨3, 3, [1, 2, 3, 4, 5, 6, 7, 8, 9]⟩ := by
  decide

/-! ## One pass, cell by cell -/

theorem wrapInt_of_fits {x : Int} (h : fitsInt x) : wrapInt x = x := by
  unfold fitsInt at h
  unfold wrapInt
  omega

theorem addInt_of_fits {a b : Int} (h : fitsInt (a + b)) : addInt a b = a + b :=
  wrapInt_of_fits h

/-- C4: on an array with at least 3 rows and 3 columns whose neighbour sums do not overflow,
one pass stores in each interior cell the sum of the eight neighbours in the input divided
by 8 and truncated toward zero (a sum of -9 gives -1, a sum of 15 gives 1). -/
theorem smooth_2d_one_pass (d : FlexInt) (hwf : d.WF) (hr : 3 ≤ d.nrow) (hc : 3 ≤ d.ncol)
    (hfit : ∀ row col, interior d.nrow d.ncol row col → noOverflowAt d row col) :
    (∃ o, smooth_2d d 1 = some o ∧
      ∀ row col, interior d.nrow d.ncol row col →
        o.result.at row col = Int.tdiv (neighbours d row col).sum 8) ∧
    divBy8 (-9) = -1 ∧ divBy8 15 = 1 := by
  refine ⟨?_, by decide, by decide⟩
  obtain ⟨h1, h2, h3⟩ := hwf
  obtain ⟨s, _, hcells, hstep⟩ := timeLoop_step (show 1 ≤ d.nrow by omega)
    (show 1 ≤ d.ncol by omega) h3
    (List.length_replicate (d.nrow * d.ncol) (0 : Int)) 0
  refine ⟨⟨⟨d.nrow, d.ncol, s⟩, ⟨d.nrow, d.ncol, s⟩⟩, ?_, ?_⟩
  · have h1t : (1 : Int).toNat = 1 := rfl
    have hrun : timeLoop d.nrow d.ncol 1 d.elems (List.replicate (d.nrow * d.ncol) 0) =
        some (s, s) := hstep
    simp only [smooth_2d, h1t, hrun, Option.map_some']
  · intro row col hint
    have hcell : FlexInt.at ⟨d.nrow, d.ncol, s⟩ row col = cell d.ncol s row col := rfl
    rw [hcell, hcells row col (by unfold interior at hint; omega), if_pos hint]
    have hf := hfit row col hint
    simp only [noOverflowAt, neighbours, sumsFit, FlexInt.at, zero_add, and_true] at hf
    obtain ⟨_, f1, f2, f3, f4, f5, f6, f7⟩ := hf
    have hsum : (neighbours d row col).sum =
        cell d.ncol d.elems (row - 1) (col - 1) + cell d.ncol d.elems (row - 1) col +
        cell d.ncol d.elems (row - 1) (col + 1) + cell d.ncol d.elems row (col - 1) +
        cell d.ncol d.elems row (col + 1) + cell d.ncol d.elems (row + 1) (col - 1) +
        cell d.ncol d.elems (row + 1) col + cell d.ncol d.elems (row + 1) (col + 1) := by
      simp only [neighbours, FlexInt.at, List.sum_cons, List.sum_nil]
      omega
    rw [hsum]
    simp only [avg8, divBy8, addInt_of_fits f1, addInt_of_fits f2,
      addInt_of_fits f3, addInt_of_fits f4, addInt_of_fits f5, addInt_of_fits f6,
      addInt_of_fits f7]

/-- The statement of C4 at a 3x4 array whose two interior cells have neighbour sums -9
and 15. -/
theorem smooth_2d_one_pass_witness :
    (∃ o, smooth_2d ⟨3, 4, [-1, -1, -1, 9, -1, -8, -2, 9, -1, -1, -1, 9]⟩ 1 = some o ∧
      ∀ row col, interior 3 4 row col →
        o.result.at row col =
          Int.tdiv (neighbours ⟨3, 4, [-1, -1, -1, 9, -1, -8, -2, 9, -1, -1, -1, 9]⟩
            row col).sum 8) ∧
    divBy8 (-9) = -1 ∧ divBy8 15 = 1 :=
  smooth_2d_one_pass ⟨3, 4, [-1, -1, -1, 9, -1, -8, -2, 9, -1, -1, -1, 9]⟩ (by decide)
    (by decide) (by decide) (by
      intro row col h
      simp only [interior] at h
      have hrow : row = 1 := by omega
      have hcol : col = 1 ∨ col = 2 := by omega
      subst hrow
      rcases hcol with hcol | hcol <;> subst hcol <;> decide)

/-! ## The 3D entry point -/

theorem colLoop3d_eq (nrow ncol : Nat) (tmp : List Int) (row : Int) :
    ∀ (n : Nat) (col : Int) (smoth : List Int),
      colLoop3d nrow ncol tmp row n col smoth = colLoop nrow ncol tmp row n col smoth := by
  intro n
  induction n with
  | zero => intro col smoth; rfl
  | succ n ih =>
    intro col smoth
    simp only [colLoop3d, colLoop, ih]
    rfl

theorem rowLoop3d_eq (nrow ncol : Nat) (tmp : List Int) :
    ∀ (m : Nat) (row : Int) (smoth : List Int),
      rowLoop3d nrow ncol tmp m row smoth = rowLoop nrow ncol tmp m row smoth := by
  intro m
  induction m with
  | zero => intro row smoth; rfl
  | succ m ih =>
    intro row smoth
    simp only [rowLoop3d, rowLoop, ih, colLoop3d_eq]

theorem timeLoop3d_eq (nrow ncol : Nat) :
    ∀ (t : Nat) (tmp smoth : List Int),
      timeLoop3d nrow ncol t tmp smoth = timeLoop nrow ncol t tmp smoth := by
  intro t
  induction t with
  | zero => intro tmp smoth; rfl
  | succ t ih =>
    intro tmp smoth
    simp only [timeLoop3d, timeLoop, ih, rowLoop3d_eq]

/-- C6: for every array and every `tot_times`, `smooth_3d` returns what `smooth_2d` returns
(and leaves the caller's array in the same state): the same 8-neighbour stencil over the
first two dimensions. -/
theorem smooth_3d_eq_smooth_2d (d : FlexInt) (tot_times : Int) :
    smooth_3d d tot_times = smooth_2d d tot_times := by
  simp only [smooth_3d, smooth_2d, timeLoop3d_eq]

/-! ## One more pass -/

theorem timeLoop_snoc (nrow ncol : Nat) :
    ∀ (t : Nat) (tmp smoth : List Int),
      timeLoop nrow ncol (t + 1) tmp smoth =
        (timeLoop nrow ncol t tmp smoth).bind fun p => timeLoop nrow ncol 1 p.1 p.2 := by
  intro t
  induction t with
  | zero => intro tmp smoth; rfl
  | succ t ih =>
    intro tmp smoth
    rw [timeLoop]
    conv_rhs => rw [timeLoop]
    cases rowLoop nrow ncol tmp (sizeSub1 nrow - 1) 1 smoth with
    | none => rfl
    | some s1 =>
      simp only [Option.some_bind]
      cases stdCopy s1 tmp with
      | none => rfl
      | some tmp1 =>
        simp only [Option.some_bind]
        exact ih tmp1 s1

theorem writeCell_length {nrow ncol : Nat} {buf s : List Int} {r c : Nat} {v : Int}
    (h : writeCell nrow ncol buf r c v = some s) : s.length = buf.length := by
  unfold writeCell at h
  split at h
  · simp only [Option.some.injEq] at h
    rw [← h, List.length_set]
  · exact absurd h (by simp)

theorem colLoop_length {nrow ncol : Nat} {tmp : List Int} {row : Nat} :
    ∀ (n col : Nat) (smoth s : List Int),
      colLoop nrow ncol tmp row n col smoth = some s → s.length = smoth.length := by
  intro n
  induction n with
  | zero =>
    intro col smoth s h
    simp only [colLoop, Option.some.injEq] at h
    rw [h]
  | succ n ih =>
    intro col smoth s h
    rw [colLoop] at h
    cases hv : stencil nrow ncol tmp row col with
    | none => rw [hv] at h; exact absurd h (by simp)
    | some v =>
      rw [hv, Option.some_bind] at h
      cases hw : writeCell nrow ncol smoth row col v with
      | none => rw [hw] at h; exact absurd h (by simp)
      | some s1 =>
        rw [hw, Option.some_bind] at h
        rw [ih (col + 1) s1 s h, writeCell_length hw]

theorem rowLoop_length {nrow ncol : Nat} {tmp : List Int} :
    ∀ (m row : Nat) (smoth s : List Int),
      rowLoop nrow ncol tmp m row smoth = some s → s.length = smoth.length := by
  intro m
  induction m with
  | zero =>
    intro row smoth s h
    simp only [rowLoop, Option.some.injEq] at h
    rw [h]
  | succ m ih =>
    intro row smoth s h
    rw [rowLoop] at h
    cases hc : colLoop nrow ncol tmp row (sizeSub1 ncol - 1) 1 smoth with
    | none => rw [hc] at h; exact absurd h (by simp)
    | some s1 =>
      rw [hc, Option.some_bind] at h
      rw [ih (row + 1) s1 s h, colLoop_length _ _ _ _ hc]

theorem stdCopy_length {src dst t : List Int} (h : stdCopy src dst = some t) :
    t.length = dst.length := by
  unfold stdCopy at h
  split at h
  · simp only [Option.some.injEq] at h
    rw [← h, List.length_append, List.length_drop]
    omega
  · exact absurd h (by simp)

theorem timeLoop_length {nrow ncol : Nat} :
    ∀ (t : Nat) (tmp smoth : List Int) (p : List Int × List Int),
      timeLoop nrow ncol t tmp smoth = some p →
        p.1.length = tmp.length ∧ p.2.length = smoth.length := by
  intro t
  induction t with
  | zero =>
    intro tmp smoth p h
    simp only [timeLoop, Option.some.injEq] at h
    rw [← h]
    exact ⟨rfl, rfl⟩
  | succ t ih =>
    intro tmp smoth p h
    rw [timeLoop] at h
    cases hr : rowLoop nrow ncol tmp (sizeSub1 nrow - 1) 1 smoth with
    | none => rw [hr] at h; exact absurd h (by simp)
    | some s1 =>
      rw [hr, Option.some_bind] at h
      cases hc : stdCopy s1 tmp with
      | none => rw [hc] at h; exact absurd h (by simp)
      | some tmp1 =>
        rw [hc, Option.some_bind] at h
        obtain ⟨h1, h2⟩ := ih tmp1 s1 p h
        exact ⟨h1.trans (stdCopy_length hc), h2.trans (rowLoop_length _ _ _ _ hr)⟩

/-- Once a pass has run, the next pass gives the same `data2dsmoth` whether it starts from
the buffers the loop holds or from a fresh call on the array returned so far. -/
theorem timeLoop_restart {nrow ncol : Nat} {tmp : List Int} (htmp : tmp.length = nrow * ncol)
    (m : Nat) {p : List Int × List Int}
    (hp : timeLoop nrow ncol (m + 1) tmp (List.replicate (nrow * ncol) 0) = some p) :
    (timeLoop nrow ncol 1 p.1 p.2).map Prod.snd =
      (timeLoop nrow ncol 1 p.2 (List.replicate (nrow * ncol) 0)).map Prod.snd := by
  have hz : (List.replicate (nrow * ncol) (0 : Int)).length = nrow * ncol :=
    List.length_replicate _ _
  by_cases hdim : 1 ≤ nrow ∧ 1 ≤ ncol
  · obtain ⟨hr, hc⟩ := hdim
    obtain ⟨q, hq, _, hq2, hq3, hq4⟩ := timeLoop_total hr hc (m + 1) tmp _ htmp hz
    rw [hp, Option.some.injEq] at hq
    subst hq
    rw [hq3 (by omega)]
    obtain ⟨s, hslen, hs, hstep⟩ := timeLoop_step hr hc hq2 hq2 0
    obtain ⟨s', hslen', hs', hstep'⟩ := timeLoop_step hr hc hq2 hz 0
    have hss : s = s' := by
      apply buf_ext hslen hslen'
      intro r c _ hc'
      rw [hs r c hc', hs' r c hc']
      by_cases hin : interior nrow ncol r c
      · rw [if_pos hin, if_pos hin]
      · rw [if_neg hin, if_neg hin, hq4 r c hc' hin]
    have e1 : timeLoop nrow ncol 1 p.2 p.2 = some (s, s) := hstep
    have e2 : timeLoop nrow ncol 1 p.2 (List.replicate (nrow * ncol) 0) = some (s', s') := hstep'
    rw [e1, e2, hss]
  · have hN : nrow * ncol = 0 := by
      rcases Nat.eq_zero_or_pos nrow with h | h
      · rw [h, Nat.zero_mul]
      · rcases Nat.eq_zero_or_pos ncol with h' | h'
        · rw [h', Nat.mul_zero]
        · exact absurd ⟨h, h'⟩ hdim
    obtain ⟨h1, h2⟩ := timeLoop_length _ _ _ _ hp
    rw [htmp, hN] at h1
    rw [hz, hN] at h2
    rw [List.eq_nil_of_length_eq_zero h1, List.eq_nil_of_length_eq_zero h2, hN]
    rfl

/-- C9: for every array and every `n >= 1`, `n + 1` passes return what one pass returns on
the array that `n` passes return.  On a non-empty grid both calls return, and pass `n + 1`
is described cell by cell: after pass `n` the copy has left in `data2dtmp` the whole of
`data2dsmoth`, ring included (`o.data2d = o.result`); every interior cell of the new result
is the stencil evaluated on that previous buffer, never on cells written during pass
`n + 1`; every other cell is as pass `n` left it; and the copy after pass `n + 1` again
leaves the whole new buffer in `data2dtmp`.  The first pass reads the input in the same
way. -/
theorem smooth_2d_extra_pass (d : FlexInt) (n : Int) (hwf : d.WF) (hn : 1 ≤ n) :
    ((smooth_2d d (n + 1)).map Outcome.result =
      ((smooth_2d d n).bind fun o => smooth_2d o.result 1).map Outcome.result) ∧
    (1 ≤ d.nrow → 1 ≤ d.ncol →
      (∃ o o', smooth_2d d n = some o ∧ smooth_2d d (n + 1) = some o' ∧
        o.data2d = o.result ∧ o'.data2d = o'.result ∧
        ∀ row col : Nat, row < d.nrow → col < d.ncol →
          (interior d.nrow d.ncol row col →
            stencil d.nrow d.ncol o.result.elems row col = some (o'.result.at row col)) ∧
          (¬ interior d.nrow d.ncol row col → o'.result.at row col = o.result.at row col)) ∧
      ∃ o1, smooth_2d d 1 = some o1 ∧ o1.data2d = o1.result ∧
        ∀ row col : Nat, row < d.nrow → col < d.ncol →
          (interior d.nrow d.ncol row col →
            stencil d.nrow d.ncol d.elems row col = some (o1.result.at row col)) ∧
          (¬ interior d.nrow d.ncol row col → o1.result.at row col = 0)) := by
  obtain ⟨m, hm⟩ : ∃ m, n.toNat = m + 1 := ⟨n.toNat - 1, by omega⟩
  have hm2 : (n + 1).toNat = m + 1 + 1 := by omega
  have h1 : (1 : Int).toNat = 1 := rfl
  constructor
  · simp only [smooth_2d, hm, hm2, h1]
    rw [timeLoop_snoc d.nrow d.ncol (m + 1)]
    cases hp : timeLoop d.nrow d.ncol (m + 1) d.elems (List.replicate (d.nrow * d.ncol) 0) with
    | none => rfl
    | some p =>
      have key := timeLoop_restart hwf.2.2 m hp
      simp only [Option.some_bind, Option.map_some', Option.map_map]
      cases e1 : timeLoop d.nrow d.ncol 1 p.1 p.2 with
      | none =>
        cases e2 : timeLoop d.nrow d.ncol 1 p.2 (List.replicate (d.nrow * d.ncol) 0) with
        | none => rfl
        | some q2 => rw [e1, e2] at key; exact absurd key (by simp)
      | some q1 =>
        cases e2 : timeLoop d.nrow d.ncol 1 p.2 (List.replicate (d.nrow * d.ncol) 0) with
        | none => rw [e1, e2] at key; exact absurd key (by simp)
        | some q2 =>
          rw [e1, e2] at key
          simp only [Option.map_some', Option.some.injEq] at key
          simp only [Option.map_some', Function.comp, key]
  · intro hr hc
    obtain ⟨p, hp, _, hp2, hp3, _⟩ := timeLoop_total hr hc (m + 1) d.elems
      (List.replicate (d.nrow * d.ncol) 0) hwf.2.2 (List.length_replicate _ _)
    have hp12 : p.1 = p.2 := hp3 (by omega)
    obtain ⟨s, _, hs, hstep⟩ := timeLoop_step hr hc hp2 hp2 0
    have hlast : timeLoop d.nrow d.ncol 1 p.2 p.2 = some (s, s) := hstep
    have h2 : timeLoop d.nrow d.ncol (m + 1 + 1) d.elems
        (List.replicate (d.nrow * d.ncol) 0) = some (s, s) := by
      rw [timeLoop_snoc, hp, Option.some_bind, hp12]
      exact hlast
    obtain ⟨s1, _, hs1, hstep1⟩ := timeLoop_step hr hc hwf.2.2
      (List.length_replicate (d.nrow * d.ncol) (0 : Int)) 0
    have hfirst : timeLoop d.nrow d.ncol 1 d.elems (List.replicate (d.nrow * d.ncol) 0) =
        some (s1, s1) := hstep1
    refine ⟨⟨⟨⟨d.nrow, d.ncol, p.2⟩, ⟨d.nrow, d.ncol, p.1⟩⟩,
      ⟨⟨d.nrow, d.ncol, s⟩, ⟨d.nrow, d.ncol, s⟩⟩, ?_, ?_, ?_, rfl, ?_⟩,
      ⟨⟨d.nrow, d.ncol, s1⟩, ⟨d.nrow, d.ncol, s1⟩⟩, ?_, rfl, ?_⟩
    rotate_left 4
    · simp only [smooth_2d, h1, hfirst, Option.map_some']
    · intro row col _ hcol
      have hcell : FlexInt.at ⟨d.nrow, d.ncol, s1⟩ row col = cell d.ncol s1 row col := rfl
      constructor
      · intro hin
        rw [hcell, hs1 row col hcol, if_pos hin]
        exact stencil_eq hwf.2.2 hin
      · intro hni
        rw [hcell, hs1 row col hcol, if_neg hni, cell_replicate_zero]
    · simp only [smooth_2d, hm, hp, Option.map_some']
    · simp only [smooth_2d, hm2, h2, Option.map_some']
    · rw [hp12]
    · intro row col _ hcol
      have hcell : FlexInt.at ⟨d.nrow, d.ncol, s⟩ row col = cell d.ncol s row col := rfl
      constructor
      · intro hin
        rw [hcell, hs row col hcol, if_pos hin]
        exact stencil_eq hp2 hin
      · intro hni
        rw [hcell, hs row col hcol, if_neg hni]
        rfl

/-- The statement of C9 at a 4x5 array with `n = 2`: two passes return interior cells
214, 280, 210, 223, 255, 189 and three passes 94, 136, 90, 93, 139, 93. -/
theorem smooth_2d_extra_pass_witness :
    ((smooth_2d ⟨4, 5, [800, 100, 600, 300, 90, 500, 700, 400, 900, 50,
        200, 1600, -300, 500, 77, 1100, 0, 700, 1200, 31]⟩ (2 + 1)).map Outcome.result =
      ((smooth_2d ⟨4, 5, [800, 100, 600, 300, 90, 500, 700, 400, 900, 50,
        200, 1600, -300, 500, 77, 1100, 0, 700, 1200, 31]⟩ 2).bind
        fun o => smooth_2d o.result 1).map Outcome.result) ∧
    ((∃ o o', smooth_2d ⟨4, 5, [800, 100, 600, 300, 90, 500, 700, 400, 900, 50,
        200, 1600, -300, 500, 77, 1100, 0, 700, 1200, 31]⟩ 2 = some o ∧
      smooth_2d ⟨4, 5, [800, 100, 600, 300, 90, 500, 700, 400, 900, 50,
        200, 1600, -300, 500, 77, 1100, 0, 700, 1200, 31]⟩ (2 + 1) = some o' ∧
      o.data2d = o.result ∧ o'.data2d = o'.result ∧
      ∀ row col : Nat, row < 4 → col < 5 →
        (interior 4 5 row col →
          stencil 4 5 o.result.elems row col = some (o'.result.at row col)) ∧
        (¬ interior 4 5 row col → o'.result.at row col = o.result.at row col)) ∧
    ∃ o1, smooth_2d ⟨4, 5, [800, 100, 600, 300, 90, 500, 700, 400, 900, 50,
        200, 1600, -300, 500, 77, 1100, 0, 700, 1200, 31]⟩ 1 = some o1 ∧
      o1.data2d = o1.result ∧
      ∀ row col : Nat, row < 4 → col < 5 →
        (interior 4 5 row col →
          stencil 4 5 [800, 100, 600, 300, 90, 500, 700, 400, 900, 50,
            200, 1600, -300, 500, 77, 1100, 0, 700, 1200, 31] row col =
            some (o1.result.at row col)) ∧
        (¬ interior 4 5 row col → o1.result.at row col = 0)) :=
  ⟨(smooth_2d_extra_pass ⟨4, 5, [800, 100, 600, 300, 90, 500, 700, 400, 900, 50,
      200, 1600, -300, 500, 77, 1100, 0, 700, 1200, 31]⟩ 2 (by decide) (by decide)).1,
    (smooth_2d_extra_pass ⟨4, 5, [800, 100, 600, 300, 90, 500, 700, 400, 900, 50,
      200, 1600, -300, 500, 77, 1100, 0, 700, 1200, 31]⟩ 2 (by decide) (by decide)).2
      (by decide) (by decide)⟩

/-- The two sides of C9 at that array, evaluated: both are the array with interior cells
94, 136, 90, 93, 139, 93, and the result of two passes it is computed from is not zero. -/
theorem smooth_2d_extra_pass_values :
    (smooth_2d ⟨4, 5, [800, 100, 600, 300, 90, 500, 700, 400, 900, 50,
        200, 1600, -300, 500, 77, 1100, 0, 700, 1200, 31]⟩ 3).map Outcome.result =
      some ⟨4, 5, [0, 0, 0, 0, 0, 0, 94, 136, 90, 0, 0, 93, 139, 93, 0, 0, 0, 0, 0, 0]⟩ ∧
    (smooth_2d ⟨4, 5, [0, 0, 0, 0, 0, 0, 214, 280, 210, 0, 0, 223, 255, 189, 0,
        0, 0, 0, 0, 0]⟩ 1).map Outcome.result =
      some ⟨4, 5, [0, 0, 0, 0, 0, 0, 94, 136, 90, 0, 0, 93, 139, 93, 0, 0, 0, 0, 0, 0]⟩ := by
  decide

/-! ## Uniform arrays -/

/-- Counterexample to C3: two passes over the 3x3 array of eights return 0 in the interior
cell `(1, 1)`, the ring of zeros left by the first pass being averaged by the second. -/
theorem smooth_2d_uniform_two_passes :
    (smooth_2d (uniform 3 3 8) 2).map Outcome.result =
        some ⟨3, 3, [0, 0, 0, 0, 0, 0, 0, 0, 0]⟩ ∧
    interior 3 3 1 1 ∧ (FlexInt.mk 3 3 [0, 0, 0, 0, 0, 0, 0, 0, 0]).at 1 1 ≠ 8 := by
  decide

theorem stencil_value_uniform {k : Int} (hk : fitsInt (8 * k)) :
    divBy8 (addInt (addInt (addInt (addInt (addInt (addInt (addInt k k) k) k) k) k) k) k)
      = k := by
  unfold fitsInt at hk
  have e1 : addInt k k = 2 * k := by unfold addInt wrapInt; omega
  have e2 : addInt (2 * k) k = 3 * k := by unfold addInt wrapInt; omega
  have e3 : addInt (3 * k) k = 4 * k := by unfold addInt wrapInt; omega
  have e4 : addInt (4 * k) k = 5 * k := by unfold addInt wrapInt; omega
  have e5 : addInt (5 * k) k = 6 * k := by unfold addInt wrapInt; omega
  have e6 : addInt (6 * k) k = 7 * k := by unfold addInt wrapInt; omega
  have e7 : addInt (7 * k) k = 8 * k := by unfold addInt wrapInt; omega
  rw [e1, e2, e3, e4, e5, e6, e7]
  unfold divBy8
  exact Int.mul_tdiv_cancel_left k (by decide)

/-- If the cells of `data2dtmp` at least `i` cells away from every edge hold `k`, a pass
leaves `k` in the cells of `data2dsmoth` at least `i + 1` cells away from every edge. -/
theorem pass_uniform {nrow ncol : Nat} {tmp s smoth : List Int} {k : Int}
    (hk : fitsInt (8 * k)) (i : Nat)
    (hinv : ∀ r c, i ≤ r → r + i < nrow → i ≤ c → c + i < ncol → cell ncol tmp r c = k)
    (hs : ∀ r c, c < ncol → cell ncol s r c =
      if interior nrow ncol r c then avg8 ncol tmp r c else cell ncol smoth r c) :
    ∀ r c, i + 1 ≤ r → r + (i + 1) < nrow → i + 1 ≤ c → c + (i + 1) < ncol →
      cell ncol s r c = k := by
  intro r c h1 h2 h3 h4
  have hin : interior nrow ncol r c := by unfold interior; omega
  rw [hs r c (by omega), if_pos hin]
  unfold avg8
  rw [hinv (r - 1) (c - 1) (by omega) (by omega) (by omega) (by omega),
    hinv (r - 1) c (by omega) (by omega) (by omega) (by omega),
    hinv (r - 1) (c + 1) (by omega) (by omega) (by omega) (by omega),
    hinv r (c - 1) (by omega) (by omega) (by omega) (by omega),
    hinv r (c + 1) (by omega) (by omega) (by omega) (by omega),
    hinv (r + 1) (c - 1) (by omega) (by omega) (by omega) (by omega),
    hinv (r + 1) c (by omega) (by omega) (by omega) (by omega),
    hinv (r + 1) (c + 1) (by omega) (by omega) (by omega) (by omega)]
  exact stencil_value_uniform hk

theorem timeLoop_uniform {nrow ncol : Nat} (hr : 1 ≤ nrow) (hc : 1 ≤ ncol) {k : Int}
    (hk : fitsInt (8 * k)) :
    ∀ (t i : Nat) (tmp smoth : List Int), tmp.length = nrow * ncol →
      smoth.length = nrow * ncol →
      (∀ r c, i ≤ r → r + i < nrow → i ≤ c → c + i < ncol → cell ncol tmp r c = k) →
      ∃ p, timeLoop nrow ncol (t + 1) tmp smoth = some p ∧
        ∀ r c, i + t + 1 ≤ r → r + (i + t + 1) < nrow → i + t + 1 ≤ c →
          c + (i + t + 1) < ncol → cell ncol p.2 r c = k := by
  intro t
  induction t with
  | zero =>
    intro i tmp smoth htmp hlen hinv
    obtain ⟨s, _, hs, hstep⟩ := timeLoop_step hr hc htmp hlen 0
    exact ⟨(s, s), hstep, pass_uniform hk i hinv hs⟩
  | succ t ih =>
    intro i tmp smoth htmp hlen hinv
    obtain ⟨s, hslen, hs, hstep⟩ := timeLoop_step hr hc htmp hlen (t + 1)
    obtain ⟨p, hp, hcells⟩ := ih (i + 1) s s hslen hslen (pass_uniform hk i hinv hs)
    refine ⟨p, hstep.trans hp, ?_⟩
    intro r c h1 h2 h3 h4
    exact hcells r c (by omega) (by omega) (by omega) (by omega)

/-- C3 as amended: for every `k` with `8 * k` representable, every shape with at least 3
rows and 3 columns and every `tot_times >= 1`, `smooth_2d` on the uniform array of `k`
returns `k` in every cell at least `tot_times` cells away from each edge; with
`tot_times = 1` these are all the interior cells. -/
theorem smooth_2d_uniform (k : Int) (nrow ncol : Nat) (tot_times : Int)
    (hk : fitsInt (8 * k)) (_hwf : (uniform nrow ncol k).WF) (hr : 3 ≤ nrow) (hc : 3 ≤ ncol)
    (ht : 1 ≤ tot_times) :
    ∃ o, smooth_2d (uniform nrow ncol k) tot_times = some o ∧
      ∀ row col : Nat, tot_times ≤ row → row + tot_times < nrow → tot_times ≤ col →
        col + tot_times < ncol → o.result.at row col = k := by
  obtain ⟨t, ht'⟩ : ∃ t, tot_times.toNat = t + 1 := ⟨tot_times.toNat - 1, by omega⟩
  obtain ⟨p, hp, hcells⟩ := timeLoop_uniform (show 1 ≤ nrow by omega) (show 1 ≤ ncol by omega)
    hk t 0 (List.replicate (nrow * ncol) k) (List.replicate (nrow * ncol) 0)
    (List.length_replicate _ _) (List.length_replicate _ _)
    (fun r c _ h2 _ h4 => cell_replicate ncol _ k r c (idx_lt (by omega) (by omega)))
  refine ⟨⟨⟨nrow, ncol, p.2⟩, ⟨nrow, ncol, p.1⟩⟩, ?_, ?_⟩
  · simp only [smooth_2d, uniform, ht', hp, Option.map_some']
  · intro row col h1 h2 h3 h4
    exact hcells row col (by omega) (by omega) (by omega) (by omega)

/-- The statement of C3 as amended at the 5x6 array of -7 with two passes. -/
theorem smooth_2d_uniform_witness :
    ∃ o, smooth_2d (uniform 5 6 (-7)) 2 = some o ∧
      ∀ row col : Nat, (2 : Int) ≤ row → row + (2 : Int) < (5 : Nat) → (2 : Int) ≤ col →
        col + (2 : Int) < (6 : Nat) → o.result.at row col = -7 :=
  smooth_2d_uniform (-7) 5 6 2 (by decide) (by decide) (by decide) (by decide) (by decide)

/-! ## The bounding box inside the image volume -/

/-- C8: `is_bbox_within_image_volume` is true exactly when x0>=0, y0>=0, x1<=width,
y1<=height, z0>=start_frame and z1<=end_frame; bbox (0,10,0,10,0,5) in image (20,20) and
scan (0,10) gives true, bbox (15,25,0,10,0,5) gives false. -/
theorem is_bbox_within_image_volume_iff :
    (∀ (s : Shoebox) (image_size scan_range : Int × Int),
      s.is_bbox_within_image_volume image_size scan_range = true ↔
        (0 ≤ s.bbox.x0 ∧ 0 ≤ s.bbox.y0 ∧ s.bbox.x1 ≤ image_size.1 ∧
          s.bbox.y1 ≤ image_size.2 ∧ scan_range.1 ≤ s.bbox.z0 ∧
          s.bbox.z1 ≤ scan_range.2)) ∧
    Shoebox.is_bbox_within_image_volume ⟨⟨0, 10, 0, 10, 0, 5⟩⟩ (20, 20) (0, 10) = true ∧
    Shoebox.is_bbox_within_image_volume ⟨⟨15, 25, 0, 10, 0, 5⟩⟩ (20, 20) (0, 10) = false := by
  refine ⟨?_, by decide, by decide⟩
  intro s image_size scan_range
  simp only [Shoebox.is_bbox_within_image_volume, Bool.and_eq_true, decide_eq_true_eq]
  tauto

end dials
